import Mathlib

/-!
Verification of the nim-mmcif repository against its specification.

The repository's parsing core (the Nim module behind `nim_mmcif.nim_mmcif`)
is not among the inspected Python sources; following the specification, the
core (`parse` / `count` / `positions`) is modelled here from the spec's
component design (line reader, schema resolver, row decoder, accumulator,
query facade).  The Python wrapper layer (`src/nim_mmcif/__init__.py`,
`src/python_wrapper/mmcif.py`) is embedded from its source.

Numeric (floating-point) fields are modelled as exactly parsed decimals
(`Dec`: an integer mantissa with a power-of-ten denominator exponent); the
claims under verification only copy and order these values, never compute
with them.  A file is a list of its text lines.
-/

namespace NimMmcif

/-! ## Tokenisation (Line Reader helpers) -/

/-- `charsPrefix pre cs`: the character list `pre` is a prefix of `cs`. -/
def charsPrefix : List Char → List Char → Bool
  | [], _ => true
  | _ :: _, [] => false
  | c :: cs, d :: ds => if c = d then charsPrefix cs ds else false

/-- `strStarts s pre`: the string `s` starts with the prefix `pre`. -/
def strStarts (s pre : String) : Bool := charsPrefix pre.toList s.toList

/-- Accumulating whitespace tokenizer over a character list: runs of
whitespace separate tokens, empty tokens are dropped. -/
def tokensAux (cur : List Char) : List Char → List String
  | [] => if cur.isEmpty then [] else [String.mk cur.reverse]
  | c :: cs =>
      if c.isWhitespace then
        if cur.isEmpty then tokensAux [] cs
        else String.mk cur.reverse :: tokensAux [] cs
      else tokensAux (c :: cur) cs

/-- Split a line into whitespace-delimited tokens (runs of whitespace separate
tokens; empty tokens are dropped). -/
def wsTokens (s : String) : List String := tokensAux [] s.toList

/-- The first whitespace-delimited token of a line (empty string if none). -/
def firstTok (l : String) : String := (wsTokens l).headD ""

/-! ## Numeric token parsing (Row Decoder helpers) -/

/-- Numeric value of a list of decimal digit characters. -/
def digitsVal (cs : List Char) : Nat :=
  cs.foldl (fun a c => a * 10 + (c.toNat - 48)) 0

/-- Parse a base-10 signed integer from a list of characters. -/
def parseIntChars? (cs : List Char) : Option Int :=
  match cs with
  | '-' :: rest =>
      if rest ≠ [] ∧ rest.all Char.isDigit then some (-(digitsVal rest : Int)) else none
  | '+' :: rest =>
      if rest ≠ [] ∧ rest.all Char.isDigit then some (digitsVal rest : Int) else none
  | _ =>
      if cs ≠ [] ∧ cs.all Char.isDigit then some (digitsVal cs : Int) else none

/-- Parse a base-10 signed integer token. -/
def parseInt? (s : String) : Option Int := parseIntChars? s.toList

/-- Split a character list at the first `.` (integer part, fractional part). -/
def splitDot : List Char → List Char × Option (List Char)
  | [] => ([], none)
  | c :: cs =>
      if c = '.' then ([], some cs)
      else
        let p := splitDot cs
        (c :: p.1, p.2)

/-- Split a character list at the first `e`/`E` (mantissa, exponent). -/
def splitExp : List Char → List Char × Option (List Char)
  | [] => ([], none)
  | c :: cs =>
      if c = 'e' ∨ c = 'E' then ([], some cs)
      else
        let p := splitExp cs
        (c :: p.1, p.2)

/-- An exactly parsed decimal number: the value `num / 10 ^ exp10`.  The
source format's floating-point columns are modelled by their exact decimal
reading; the verified claims only copy and order these values. -/
structure Dec where
  num : Int
  exp10 : Nat
  deriving Repr, DecidableEq

/-- Parse an unsigned decimal mantissa (`digits`, `digits.digits`, `.digits`,
`digits.`) as an exact decimal. -/
def parseMantissa? (cs : List Char) : Option Dec :=
  match splitDot cs with
  | (w, none) =>
      if w ≠ [] ∧ w.all Char.isDigit then some ⟨(digitsVal w : Int), 0⟩ else none
  | (w, some f) =>
      if (w ≠ [] ∨ f ≠ []) ∧ w.all Char.isDigit ∧ f.all Char.isDigit then
        some ⟨(digitsVal w * 10 ^ f.length + digitsVal f : Nat), f.length⟩
      else none

/-- Parse a decimal float token (optional sign, optional fraction, optional
exponent) as an exact decimal. -/
def parseDec? (s : String) : Option Dec :=
  let (m, eo) := splitExp s.toList
  let (sg, body) : Int × List Char :=
    match m with
    | '-' :: rest => (-1, rest)
    | '+' :: rest => (1, rest)
    | _ => (1, m)
  match parseMantissa? body with
  | none => none
  | some mant =>
      match eo with
      | none => some ⟨sg * mant.num, mant.exp10⟩
      | some ecs =>
          match parseIntChars? ecs with
          | none => none
          | some e =>
              if 0 ≤ e then some ⟨sg * mant.num * (10 : Int) ^ e.toNat, mant.exp10⟩
              else some ⟨sg * mant.num, mant.exp10 + (-e).toNat⟩

/-! ## Data model -/

/-- One decoded `_atom_site` row (spec section 3). -/
structure AtomRecord where
  type : String
  id : Int
  type_symbol : String
  label_atom_id : String
  label_alt_id : Option String
  label_comp_id : String
  label_asym_id : String
  label_entity_id : Int
  label_seq_id : Option Int
  pdbx_PDB_ins_code : Option String
  Cartn_x : Dec
  Cartn_y : Dec
  Cartn_z : Dec
  occupancy : Option Dec
  B_iso_or_equiv : Option Dec
  pdbx_formal_charge : Option String
  auth_seq_id : String
  auth_comp_id : String
  auth_asym_id : String
  auth_atom_id : String
  pdbx_PDB_model_num : Int
  x : Dec
  y : Dec
  z : Dec
  deriving Repr, DecidableEq

/-- Error vocabulary of the parsing core (spec section 7).  A decode error
carries the 1-based source line number of the offending row. -/
inductive ParseError where
  | ioError : ParseError
  | schemaError : ParseError
  | decodeError : Nat → ParseError
  deriving Repr, DecidableEq

/-! ## Schema Resolver -/

/-- The required `_atom_site` column names, in the conventional order
(spec sections 3 and 8: the 21 required dotted names). -/
def requiredCols : List String :=
  ["_atom_site.group_PDB", "_atom_site.id", "_atom_site.type_symbol",
   "_atom_site.label_atom_id", "_atom_site.label_alt_id", "_atom_site.label_comp_id",
   "_atom_site.label_asym_id", "_atom_site.label_entity_id", "_atom_site.label_seq_id",
   "_atom_site.pdbx_PDB_ins_code", "_atom_site.Cartn_x", "_atom_site.Cartn_y",
   "_atom_site.Cartn_z", "_atom_site.occupancy", "_atom_site.B_iso_or_equiv",
   "_atom_site.pdbx_formal_charge", "_atom_site.auth_seq_id", "_atom_site.auth_comp_id",
   "_atom_site.auth_asym_id", "_atom_site.auth_atom_id", "_atom_site.pdbx_PDB_model_num"]

/-- All required column names are present in the collected header block. -/
def requiredPresent (cols : List String) : Bool :=
  requiredCols.all (fun c => cols.contains c)

/-- Token of the named column in a data row, per the resolved column order. -/
def colTok? (cols ts : List String) (name : String) : Option String :=
  (cols.findIdx? (fun c => c = name)).bind (fun i => ts.get? i)

/-! ## Row Decoder

Each row decoder is a total function to `Option`; `none` means the row fails
to decode (the caller turns that into a `decodeError` tagged with the row's
1-based line number). -/

/-- Required decimal column: `.`/`?` are never valid. -/
def decCol? (cols ts : List String) (name : String) : Option Dec :=
  (colTok? cols ts name).bind parseDec?

/-- Optional decimal column: `.`/`?` decode to an absent value. -/
def optDecCol? (cols ts : List String) (name : String) : Option (Option Dec) :=
  (colTok? cols ts name).bind fun t =>
    if t = "." ∨ t = "?" then some none else (parseDec? t).map some

/-- Required integer column: `.`/`?` are never valid. -/
def intCol? (cols ts : List String) (name : String) : Option Int :=
  (colTok? cols ts name).bind parseInt?

/-- Optional integer column: `.`/`?` decode to an absent value. -/
def optIntCol? (cols ts : List String) (name : String) : Option (Option Int) :=
  (colTok? cols ts name).bind fun t =>
    if t = "." ∨ t = "?" then some none else (parseInt? t).map some

/-- Optional string column: `.`/`?` decode to an absent value. -/
def optStrCol? (cols ts : List String) (name : String) : Option (Option String) :=
  (colTok? cols ts name).map fun t =>
    if t = "." ∨ t = "?" then none else some t

/-- Count-style row validation: only the group keyword is checked
(spec section 4.5, `count`). -/
def countRow? (cols : List String) (line : String) : Option Unit := do
  let g ← colTok? cols (wsTokens line) "_atom_site.group_PDB"
  if g = "ATOM" ∨ g = "HETATM" then some () else none

/-- Position-style row decoding: row shape, group keyword, and the three
coordinate columns only (spec section 4.5, `positions`). -/
def posRow? (cols : List String) (line : String) : Option (Dec × Dec × Dec) := do
  let ts := wsTokens line
  if ts.length = cols.length then
    let _ ← countRow? cols line
    let cx ← decCol? cols ts "_atom_site.Cartn_x"
    let cy ← decCol? cols ts "_atom_site.Cartn_y"
    let cz ← decCol? cols ts "_atom_site.Cartn_z"
    some (cx, cy, cz)
  else none

/-- Decode the group keyword and validate the source file's own id column
(its value is discarded; the Atom Accumulator re-derives sequential ids). -/
def groupIdCols? (cols ts : List String) : Option String := do
  let g ← colTok? cols ts "_atom_site.group_PDB"
  let _ ← intCol? cols ts "_atom_site.id"
  some g

/-- Decode the `label_*` columns and the insertion code. -/
def labelCols? (cols ts : List String) :
    Option (String × String × Option String × String × String × Int × Option Int × Option String) := do
  let tySym ← colTok? cols ts "_atom_site.type_symbol"
  let lAtom ← colTok? cols ts "_atom_site.label_atom_id"
  let lAlt ← optStrCol? cols ts "_atom_site.label_alt_id"
  let lComp ← colTok? cols ts "_atom_site.label_comp_id"
  let lAsym ← colTok? cols ts "_atom_site.label_asym_id"
  let lEnt ← intCol? cols ts "_atom_site.label_entity_id"
  let lSeq ← optIntCol? cols ts "_atom_site.label_seq_id"
  let ins ← optStrCol? cols ts "_atom_site.pdbx_PDB_ins_code"
  some (tySym, lAtom, lAlt, lComp, lAsym, lEnt, lSeq, ins)

/-- Decode occupancy, B-factor and formal charge. -/
def physCols? (cols ts : List String) :
    Option (Option Dec × Option Dec × Option String) := do
  let occ ← optDecCol? cols ts "_atom_site.occupancy"
  let bIso ← optDecCol? cols ts "_atom_site.B_iso_or_equiv"
  let chg ← optStrCol? cols ts "_atom_site.pdbx_formal_charge"
  some (occ, bIso, chg)

/-- Decode the author-provided columns and the model number. -/
def authCols? (cols ts : List String) :
    Option (String × String × String × String × Int) := do
  let aSeq ← colTok? cols ts "_atom_site.auth_seq_id"
  let aComp ← colTok? cols ts "_atom_site.auth_comp_id"
  let aAsym ← colTok? cols ts "_atom_site.auth_asym_id"
  let aAtom ← colTok? cols ts "_atom_site.auth_atom_id"
  let mdl ← intCol? cols ts "_atom_site.pdbx_PDB_model_num"
  some (aSeq, aComp, aAsym, aAtom, mdl)

/-- Full row decoding (spec sections 4.3 and 3).  The record's `id` is a
placeholder here; the Atom Accumulator re-derives sequential ids. -/
def decodeRow? (cols : List String) (line : String) : Option AtomRecord := do
  let ts := wsTokens line
  let (cx, cy, cz) ← posRow? cols line
  let g ← groupIdCols? cols ts
  let (tySym, lAtom, lAlt, lComp, lAsym, lEnt, lSeq, ins) ← labelCols? cols ts
  let (occ, bIso, chg) ← physCols? cols ts
  let (aSeq, aComp, aAsym, aAtom, mdl) ← authCols? cols ts
  some { type := g, id := 0, type_symbol := tySym, label_atom_id := lAtom,
         label_alt_id := lAlt, label_comp_id := lComp, label_asym_id := lAsym,
         label_entity_id := lEnt, label_seq_id := lSeq, pdbx_PDB_ins_code := ins,
         Cartn_x := cx, Cartn_y := cy, Cartn_z := cz,
         occupancy := occ, B_iso_or_equiv := bIso, pdbx_formal_charge := chg,
         auth_seq_id := aSeq, auth_comp_id := aComp, auth_asym_id := aAsym,
         auth_atom_id := aAtom, pdbx_PDB_model_num := mdl,
         x := cx, y := cy, z := cz }

/-- Lift an `Option`-valued row decoder to the scanner's interface, tagging
failure with the row's 1-based line number. -/
def liftRow {α : Type} (f : List String → String → Option α) :
    List String → Nat → String → Except ParseError α :=
  fun cols n l =>
    match f cols l with
    | some a => .ok a
    | none => .error (.decodeError n)

/-! ## Line Reader / state machine (spec sections 4.1 and 4.5) -/

/-- A line that terminates the `_atom_site` row scan: end-of-block comment,
a new `loop_`, a new category prefix, or a blank line. -/
def isTermLine (l : String) : Bool :=
  firstTok l = "" || strStarts (firstTok l) "#" || firstTok l = "loop_" ||
    (strStarts (firstTok l) "_" && !strStarts (firstTok l) "_atom_site.")

/-- States of the shared scan prior to row reading (spec section 4.5):
`seeking` looks for `loop_`, `afterLoop` checks that the loop is the
`_atom_site` table, `readingHeader` collects the column names. -/
inductive ScanState where
  | seeking : ScanState
  | afterLoop : ScanState
  | readingHeader : List String → ScanState
  deriving Repr, DecidableEq

/-- Scan the data rows of the `_atom_site` loop, handing each non-terminator
line to the row decoder; `n` is the 1-based line number of the head line. -/
def scanRows {α : Type} (dec : List String → Nat → String → Except ParseError α)
    (cols : List String) : Nat → List String → Except ParseError (List α)
  | _, [] => .ok []
  | n, l :: ls =>
      if isTermLine l then .ok []
      else
        match dec cols n l with
        | .error e => .error e
        | .ok a => (scanRows dec cols (n + 1) ls).map (fun as => a :: as)

/-- The shared state machine (spec section 4.5): end of input while seeking
or reading headers yields an empty successful result; the schema is
validated once, at the transition from header reading to row reading. -/
def scanLines {α : Type} (dec : List String → Nat → String → Except ParseError α) :
    ScanState → Nat → List String → Except ParseError (List α)
  | _, _, [] => .ok []
  | .seeking, n, l :: ls =>
      if firstTok l = "loop_" then scanLines dec .afterLoop (n + 1) ls
      else scanLines dec .seeking (n + 1) ls
  | .afterLoop, n, l :: ls =>
      if strStarts (firstTok l) "_atom_site." then
        scanLines dec (.readingHeader [firstTok l]) (n + 1) ls
      else if firstTok l = "loop_" then scanLines dec .afterLoop (n + 1) ls
      else scanLines dec .seeking (n + 1) ls
  | .readingHeader cols, n, l :: ls =>
      if strStarts (firstTok l) "_atom_site." then
        scanLines dec (.readingHeader (cols ++ [firstTok l])) (n + 1) ls
      else if requiredPresent cols then scanRows dec cols n (l :: ls)
      else .error .schemaError

/-! ## Atom Accumulator -/

/-- Assign sequential ids starting at `k` in output order (spec section 4.4). -/
def assignIdsFrom : Int → List AtomRecord → List AtomRecord
  | _, [] => []
  | k, r :: rs => { r with id := k } :: assignIdsFrom (k + 1) rs

/-! ## Query Facade (spec section 4.5) -/

/-- Modelled from the spec: the parsing core's full-decode entry point
(`parse(path) -> records`); the Nim implementation is absent from the
inspected sources.  The input is the file's list of lines. -/
def parse (lines : List String) : Except ParseError (List AtomRecord) :=
  (scanLines (liftRow decodeRow?) .seeking 1 lines).map (assignIdsFrom 1)

/-- Modelled from the spec: the parsing core's count-only entry point
(`count(path) -> integer`). -/
def count (lines : List String) : Except ParseError Nat :=
  (scanLines (liftRow countRow?) .seeking 1 lines).map List.length

/-- Modelled from the spec: the parsing core's coordinate-only entry point
(`positions(path) -> coordinate list`). -/
def positions (lines : List String) : Except ParseError (List (Dec × Dec × Dec)) :=
  scanLines (liftRow posRow?) .seeking 1 lines

/-- The data-row lines (with their 1-based line numbers) that the shared
state machine hands to the Row Decoder; a file has zero `_atom_site` data
rows exactly when this is `ok []`. -/
def scannedRows (lines : List String) : Except ParseError (List (Nat × String)) :=
  scanLines (fun _ n l => .ok (n, l)) .seeking 1 lines

/-! ## Concrete sample input (the spec section 8 scenario / tests/test.mmcif) -/

instance {e a : Type} [DecidableEq e] [DecidableEq a] : DecidableEq (Except e a) := fun x y =>
  match x, y with
  | .ok u, .ok v =>
      if h : u = v then isTrue (by rw [h]) else isFalse (by simp [h])
  | .error u, .error v =>
      if h : u = v then isTrue (by rw [h]) else isFalse (by simp [h])
  | .ok _, .error _ => isFalse (by simp)
  | .error _, .ok _ => isFalse (by simp)

/-- The canonical `_atom_site` header block: a `loop_` directive followed by
the 21 required column names. -/
def stdHeaderLines : List String := "loop_" :: requiredCols

/-- The data row of the spec's concrete scenario (section 8), also the first
row of `src/tests/test.mmcif`. -/
def sampleDataRow : String :=
  "ATOM 1 N N . VAL A 1 1 ? 6.204 16.869 4.854 1.00 49.05 ? 1 VAL A N 1"

/-- A complete single-row sample file. -/
def sampleLines : List String := stdHeaderLines ++ [sampleDataRow, "#"]

/-- The record the spec's scenario expects for `sampleDataRow`. -/
def sampleRecord : AtomRecord :=
  { type := "ATOM", id := 1, type_symbol := "N", label_atom_id := "N",
    label_alt_id := none, label_comp_id := "VAL", label_asym_id := "A",
    label_entity_id := 1, label_seq_id := some 1, pdbx_PDB_ins_code := none,
    Cartn_x := ⟨6204, 3⟩, Cartn_y := ⟨16869, 3⟩, Cartn_z := ⟨4854, 3⟩,
    occupancy := some ⟨100, 2⟩, B_iso_or_equiv := some ⟨4905, 2⟩,
    pdbx_formal_charge := none, auth_seq_id := "1", auth_comp_id := "VAL",
    auth_asym_id := "A", auth_atom_id := "N", pdbx_PDB_model_num := 1,
    x := ⟨6204, 3⟩, y := ⟨16869, 3⟩, z := ⟨4854, 3⟩ }

/-- A permuted header tail: the 20 required column names other than
`_atom_site.id` (which leads the block), with `Cartn_y` listed before
`Cartn_x` — a legal column order differing from the canonical one. -/
def permHdrTail : List String :=
  ["_atom_site.group_PDB", "_atom_site.type_symbol", "_atom_site.label_atom_id",
   "_atom_site.label_alt_id", "_atom_site.label_comp_id", "_atom_site.label_asym_id",
   "_atom_site.label_entity_id", "_atom_site.label_seq_id", "_atom_site.pdbx_PDB_ins_code",
   "_atom_site.Cartn_y", "_atom_site.Cartn_x", "_atom_site.Cartn_z",
   "_atom_site.occupancy", "_atom_site.B_iso_or_equiv", "_atom_site.pdbx_formal_charge",
   "_atom_site.auth_seq_id", "_atom_site.auth_comp_id", "_atom_site.auth_asym_id",
   "_atom_site.auth_atom_id", "_atom_site.pdbx_PDB_model_num"]

/-- A data row laid out in the permuted column order above. -/
def permDataRow : String :=
  "1 ATOM N N . VAL A 1 1 ? 16.869 6.204 4.854 1.00 49.05 ? 1 VAL A N 1"

/-- The same row with a non-numeric `Cartn_y` token. -/
def permBadRow : String :=
  "1 ATOM N N . VAL A 1 1 ? bogus 6.204 4.854 1.00 49.05 ? 1 VAL A N 1"

/-! ## Python wrapper layer (embedded from `src/nim_mmcif/__init__.py`;
`src/python_wrapper/mmcif.py` behaves identically for the verified
properties) -/

/-- A Python `str` or `pathlib.Path` argument, as the wrappers accept
(`Union[str, Path]`).  In this model `str(Path(s)) = s`. -/
inductive PyPathLike where
  | str : String → PyPathLike
  | path : String → PyPathLike
  deriving Repr, DecidableEq

/-- `str()` of a path-like value (after the wrapper's `Path(filepath)`
normalization, the backend receives this string). -/
def pathStr : PyPathLike → String
  | .str s => s
  | .path s => s

/-- Python-level exceptions raised by the wrapper layer. -/
inductive PyError where
  | fileNotFoundError : String → PyError
  | runtimeError : String → PyError
  deriving Repr, DecidableEq

/-- The wrapper's view of the file system: which paths exist. -/
structure PyFileSystem where
  fileExists : String → Bool

/-- Shared shape of the four wrapper functions in
`src/nim_mmcif/__init__.py`: normalize the argument (`Path(filepath)` /
`str(filepath)`), raise `FileNotFoundError` if the path does not exist,
otherwise call the backend and translate any backend failure into a
`RuntimeError` carrying the wrapper-specific message. -/
def wrapperCall {α : Type} (fs : PyFileSystem) (failMsg : String)
    (backend : String → Except String α) (filepath : PyPathLike) : Except PyError α :=
  let fp := pathStr filepath
  if fs.fileExists fp then
    match backend fp with
    | .ok v => .ok v
    | .error e => .error (.runtimeError (failMsg ++ e))
  else .error (.fileNotFoundError ("mmCIF file not found: " ++ fp))

/-- `parse_mmcif` wrapper (src/nim_mmcif/__init__.py lines 31-53). -/
def parse_mmcif {α : Type} (fs : PyFileSystem) (backend : String → Except String α)
    (filepath : PyPathLike) : Except PyError α :=
  wrapperCall fs "Failed to parse mmCIF file: " backend filepath

/-- `get_atom_count` wrapper (src/nim_mmcif/__init__.py lines 55-77). -/
def get_atom_count {α : Type} (fs : PyFileSystem) (backend : String → Except String α)
    (filepath : PyPathLike) : Except PyError α :=
  wrapperCall fs "Failed to get atom count: " backend filepath

/-- `get_atoms` wrapper (src/nim_mmcif/__init__.py lines 79-101). -/
def get_atoms {α : Type} (fs : PyFileSystem) (backend : String → Except String α)
    (filepath : PyPathLike) : Except PyError α :=
  wrapperCall fs "Failed to get atoms: " backend filepath

/-- `get_atom_positions` wrapper (src/nim_mmcif/__init__.py lines 103-125). -/
def get_atom_positions {α : Type} (fs : PyFileSystem) (backend : String → Except String α)
    (filepath : PyPathLike) : Except PyError α :=
  wrapperCall fs "Failed to get atom positions: " backend filepath

/-- Render a core parse error as the backend's failure text. -/
def parseErrorMsg : ParseError → String
  | .ioError => "io error"
  | .schemaError => "missing required atom_site column"
  | .decodeError n => "decode error at line " ++ toString n

/-- Modelled from the spec: the Nim backend function `parse_mmcif`
(module `nim_mmcif.nim_mmcif`, absent from the inspected sources) runs the
parsing core on the file's lines and returns the full record sequence
(spec sections 6 and 9: the standardized ordered-record-sequence result). -/
def backend_parse_mmcif (content : String → List String) :
    String → Except String (List AtomRecord) := fun p =>
  match parse (content p) with
  | .ok l => .ok l
  | .error e => .error (parseErrorMsg e)

/-- Modelled from the spec: the Nim backend function `get_atoms`, specified
as equivalent to `parse_mmcif` (spec section 6). -/
def backend_get_atoms (content : String → List String) :
    String → Except String (List AtomRecord) := fun p =>
  match parse (content p) with
  | .ok l => .ok l
  | .error e => .error (parseErrorMsg e)

/-- The public `parse_mmcif` entry point wired to its modelled backend. -/
def nim_parse_mmcif (fs : PyFileSystem) (content : String → List String) :
    PyPathLike → Except PyError (List AtomRecord) :=
  parse_mmcif fs (backend_parse_mmcif content)

/-- The public `get_atoms` entry point wired to its modelled backend. -/
def nim_get_atoms (fs : PyFileSystem) (content : String → List String) :
    PyPathLike → Except PyError (List AtomRecord) :=
  get_atoms fs (backend_get_atoms content)

/-! ## Basic `Option` / `Except` facts -/

theorem optBindM_some {α β : Type} {x : Option α} {f : α → Option β} {b : β} :
    (x >>= f) = some b ↔ ∃ a, x = some a ∧ f a = some b := by
  cases x <;> simp [Option.bind_eq_bind']

theorem exceptMap_ok {ε α β : Type} {f : α → β} {x : Except ε α} {b : β} :
    x.map f = .ok b ↔ ∃ a, x = .ok a ∧ f a = b := by
  cases x <;> simp [Except.map]

theorem liftRow_ok {α : Type} {f : List String → String → Option α} {cols : List String}
    {n : Nat} {l : String} {a : α} :
    liftRow f cols n l = .ok a ↔ f cols l = some a := by
  unfold liftRow
  cases h : f cols l <;> simp

/-! ## Row decoder relations -/

theorem countRow?_of_posRow? {cols : List String} {line : String} {p : Dec × Dec × Dec}
    (h : posRow? cols line = some p) : countRow? cols line = some () := by
  unfold posRow? at h
  dsimp only at h
  split at h
  · simp only [optBindM_some] at h
    obtain ⟨u, hu, -⟩ := h
    cases u
    exact hu
  · exact absurd h (by simp)

theorem decodeRow?_posRow? {cols : List String} {line : String} {r : AtomRecord}
    (h : decodeRow? cols line = some r) :
    posRow? cols line = some (r.Cartn_x, r.Cartn_y, r.Cartn_z) ∧
      r.x = r.Cartn_x ∧ r.y = r.Cartn_y ∧ r.z = r.Cartn_z := by
  unfold decodeRow? at h
  simp only [optBindM_some] at h
  obtain ⟨⟨cx, cy, cz⟩, hpos, h⟩ := h
  obtain ⟨g, -, h⟩ := h
  obtain ⟨⟨tySym, lAtom, lAlt, lComp, lAsym, lEnt, lSeq, ins⟩, -, h⟩ := h
  obtain ⟨⟨occ, bIso, chg⟩, -, h⟩ := h
  obtain ⟨⟨aSeq, aComp, aAsym, aAtom, mdl⟩, -, h⟩ := h
  simp only [Option.some.injEq] at h
  subst h
  exact ⟨hpos, rfl, rfl, rfl⟩

/-! ## Scanner lemmas -/

theorem scanRows_rel {α β : Type} (f : List String → Nat → String → Except ParseError α)
    (g : List String → Nat → String → Except ParseError β) (h : α → β)
    (H : ∀ cols n l a, f cols n l = .ok a → g cols n l = .ok (h a)) :
    ∀ {cols : List String} (ls : List String) {n : Nat} {xs : List α},
      scanRows f cols n ls = .ok xs → scanRows g cols n ls = .ok (xs.map h) := by
  intro cols ls
  induction ls with
  | nil =>
      intro n xs hx
      simp only [scanRows] at hx
      cases hx
      simp [scanRows]
  | cons l ls ih =>
      intro n xs hx
      simp only [scanRows] at hx ⊢
      by_cases ht : isTermLine l
      · simp only [ht, if_true] at hx ⊢
        cases hx
        rfl
      · simp only [ht, if_false, Bool.false_eq_true] at hx ⊢
        cases hd : f cols n l with
        | error e => rw [hd] at hx; exact absurd hx (by simp)
        | ok a =>
            rw [hd] at hx
            rw [H cols n l a hd]
            rw [exceptMap_ok] at hx
            obtain ⟨as, has, hcons⟩ := hx
            rw [ih has]
            subst hcons
            simp [Except.map]

theorem scanLines_rel {α β : Type} (f : List String → Nat → String → Except ParseError α)
    (g : List String → Nat → String → Except ParseError β) (h : α → β)
    (H : ∀ cols n l a, f cols n l = .ok a → g cols n l = .ok (h a)) :
    ∀ (ls : List String) {st : ScanState} {n : Nat} {xs : List α},
      scanLines f st n ls = .ok xs → scanLines g st n ls = .ok (xs.map h) := by
  intro ls
  induction ls with
  | nil =>
      intro st n xs hx
      simp only [scanLines] at hx
      cases hx
      simp [scanLines]
  | cons l ls ih =>
      intro st n xs hx
      cases st with
      | seeking =>
          simp only [scanLines] at hx ⊢
          by_cases h1 : firstTok l = "loop_"
          · rw [if_pos h1] at hx ⊢; exact ih hx
          · rw [if_neg h1] at hx ⊢; exact ih hx
      | afterLoop =>
          simp only [scanLines] at hx ⊢
          by_cases h1 : strStarts (firstTok l) "_atom_site." = true
          · rw [if_pos h1] at hx ⊢; exact ih hx
          · rw [if_neg h1] at hx ⊢
            by_cases h2 : firstTok l = "loop_"
            · rw [if_pos h2] at hx ⊢; exact ih hx
            · rw [if_neg h2] at hx ⊢; exact ih hx
      | readingHeader cols =>
          simp only [scanLines] at hx ⊢
          by_cases h1 : strStarts (firstTok l) "_atom_site." = true
          · rw [if_pos h1] at hx ⊢; exact ih hx
          · rw [if_neg h1] at hx ⊢
            by_cases h2 : requiredPresent cols = true
            · rw [if_pos h2] at hx ⊢
              exact scanRows_rel f g h H (l :: ls) hx
            · rw [if_neg h2] at hx
              exact absurd hx (by simp)

theorem scanRows_forall {α : Type} (f : List String → Nat → String → Except ParseError α)
    (P : α → Prop) (H : ∀ cols n l a, f cols n l = .ok a → P a) :
    ∀ {cols : List String} (ls : List String) {n : Nat} {xs : List α},
      scanRows f cols n ls = .ok xs → ∀ a ∈ xs, P a := by
  intro cols ls
  induction ls with
  | nil =>
      intro n xs hx
      simp only [scanRows] at hx
      cases hx
      simp
  | cons l ls ih =>
      intro n xs hx
      simp only [scanRows] at hx
      by_cases ht : isTermLine l
      · rw [if_pos ht] at hx
        cases hx
        simp
      · rw [if_neg ht] at hx
        cases hd : f cols n l with
        | error e => rw [hd] at hx; exact absurd hx (by simp)
        | ok a =>
            rw [hd] at hx
            rw [exceptMap_ok] at hx
            obtain ⟨as, has, hcons⟩ := hx
            subst hcons
            intro b hb
            rcases List.mem_cons.mp hb with hb | hb
            · exact hb ▸ H cols n l a hd
            · exact ih has b hb

theorem scanLines_forall {α : Type} (f : List String → Nat → String → Except ParseError α)
    (P : α → Prop) (H : ∀ cols n l a, f cols n l = .ok a → P a) :
    ∀ (ls : List String) {st : ScanState} {n : Nat} {xs : List α},
      scanLines f st n ls = .ok xs → ∀ a ∈ xs, P a := by
  intro ls
  induction ls with
  | nil =>
      intro st n xs hx
      simp only [scanLines] at hx
      cases hx
      simp
  | cons l ls ih =>
      intro st n xs hx
      cases st with
      | seeking =>
          simp only [scanLines] at hx
          by_cases h1 : firstTok l = "loop_"
          · rw [if_pos h1] at hx; exact ih hx
          · rw [if_neg h1] at hx; exact ih hx
      | afterLoop =>
          simp only [scanLines] at hx
          by_cases h1 : strStarts (firstTok l) "_atom_site." = true
          · rw [if_pos h1] at hx; exact ih hx
          · rw [if_neg h1] at hx
            by_cases h2 : firstTok l = "loop_"
            · rw [if_pos h2] at hx; exact ih hx
            · rw [if_neg h2] at hx; exact ih hx
      | readingHeader cols =>
          simp only [scanLines] at hx
          by_cases h1 : strStarts (firstTok l) "_atom_site." = true
          · rw [if_pos h1] at hx; exact ih hx
          · rw [if_neg h1] at hx
            by_cases h2 : requiredPresent cols = true
            · rw [if_pos h2] at hx
              exact scanRows_forall f P H (l :: ls) hx
            · rw [if_neg h2] at hx
              exact absurd hx (by simp)

theorem scanRows_okNil {α β : Type} (f : List String → Nat → String → Except ParseError α)
    (g : List String → Nat → String → Except ParseError β) :
    ∀ {cols : List String} (ls : List String) {n : Nat},
      scanRows f cols n ls = .ok [] → scanRows g cols n ls = .ok [] := by
  intro cols ls
  induction ls with
  | nil => intro n _; simp [scanRows]
  | cons l ls ih =>
      intro n hx
      simp only [scanRows] at hx ⊢
      by_cases ht : isTermLine l
      · rw [if_pos ht]
      · rw [if_neg ht] at hx
        cases hd : f cols n l with
        | error e => rw [hd] at hx; exact absurd hx (by simp)
        | ok a =>
            rw [hd] at hx
            rw [exceptMap_ok] at hx
            obtain ⟨as, -, hcons⟩ := hx
            exact absurd hcons (by simp)

theorem scanLines_okNil {α β : Type} (f : List String → Nat → String → Except ParseError α)
    (g : List String → Nat → String → Except ParseError β) :
    ∀ (ls : List String) {st : ScanState} {n : Nat},
      scanLines f st n ls = .ok [] → scanLines g st n ls = .ok [] := by
  intro ls
  induction ls with
  | nil => intro st n _; simp [scanLines]
  | cons l ls ih =>
      intro st n hx
      cases st with
      | seeking =>
          simp only [scanLines] at hx ⊢
          by_cases h1 : firstTok l = "loop_"
          · rw [if_pos h1] at hx ⊢; exact ih hx
          · rw [if_neg h1] at hx ⊢; exact ih hx
      | afterLoop =>
          simp only [scanLines] at hx ⊢
          by_cases h1 : strStarts (firstTok l) "_atom_site." = true
          · rw [if_pos h1] at hx ⊢; exact ih hx
          · rw [if_neg h1] at hx ⊢
            by_cases h2 : firstTok l = "loop_"
            · rw [if_pos h2] at hx ⊢; exact ih hx
            · rw [if_neg h2] at hx ⊢; exact ih hx
      | readingHeader cols =>
          simp only [scanLines] at hx ⊢
          by_cases h1 : strStarts (firstTok l) "_atom_site." = true
          · rw [if_pos h1] at hx ⊢; exact ih hx
          · rw [if_neg h1] at hx ⊢
            by_cases h2 : requiredPresent cols = true
            · rw [if_pos h2] at hx ⊢
              exact scanRows_okNil f g (l :: ls) hx
            · rw [if_neg h2] at hx
              exact absurd hx (by simp)

/-! ## Accumulator lemmas -/

theorem assignIdsFrom_length (k : Int) (rs : List AtomRecord) :
    (assignIdsFrom k rs).length = rs.length := by
  induction rs generalizing k with
  | nil => rfl
  | cons r rs ih => simp [assignIdsFrom, ih]

theorem assignIdsFrom_get? (k : Int) (rs : List AtomRecord) (i : Nat) :
    (assignIdsFrom k rs).get? i = (rs.get? i).map (fun r => { r with id := k + i }) := by
  induction rs generalizing k i with
  | nil => simp [assignIdsFrom]
  | cons r rs ih =>
      cases i with
      | zero => simp [assignIdsFrom]
      | succ j =>
          simp only [assignIdsFrom, List.get?_cons_succ, ih]
          have : (k + 1) + (j : Int) = k + (j + 1 : Nat) := by push_cast; ring
          rw [this]

theorem assignIdsFrom_map_coords (k : Int) (rs : List AtomRecord) :
    (assignIdsFrom k rs).map (fun r => (r.x, r.y, r.z)) = rs.map (fun r => (r.x, r.y, r.z)) := by
  induction rs generalizing k with
  | nil => rfl
  | cons r rs ih => simp [assignIdsFrom, ih]

theorem assignIdsFrom_coords_mem (k : Int) (rs : List AtomRecord)
    (H : ∀ r ∈ rs, r.x = r.Cartn_x ∧ r.y = r.Cartn_y ∧ r.z = r.Cartn_z) :
    ∀ r ∈ assignIdsFrom k rs, r.x = r.Cartn_x ∧ r.y = r.Cartn_y ∧ r.z = r.Cartn_z := by
  induction rs generalizing k with
  | nil => simp [assignIdsFrom]
  | cons r rs ih =>
      intro s hs
      rcases List.mem_cons.mp hs with hs | hs
      · subst hs
        exact H r (by simp)
      · exact ih (k + 1) (fun t ht => H t (List.mem_cons_of_mem r ht)) s hs

/-! ## Group keyword and header-block lemmas -/

theorem countRow?_group {line : String} {u : Unit}
    (h : countRow? requiredCols line = some u) :
    firstTok line = "ATOM" ∨ firstTok line = "HETATM" := by
  unfold countRow? at h
  simp only [optBindM_some] at h
  obtain ⟨g, hg, hif⟩ := h
  have hgrp : g = "ATOM" ∨ g = "HETATM" := by
    by_cases hc : g = "ATOM" ∨ g = "HETATM"
    · exact hc
    · rw [if_neg hc] at hif; exact absurd hif (by simp)
  unfold colTok? at hg
  have hidx : requiredCols.findIdx? (fun c => c = "_atom_site.group_PDB") = some 0 := by rfl
  rw [hidx] at hg
  cases hw : wsTokens line with
  | nil => rw [hw] at hg; exact absurd hg (by simp)
  | cons a as =>
      rw [hw] at hg
      simp only [Option.some_bind, List.get?_cons_zero, Option.some.injEq] at hg
      unfold firstTok
      rw [hw]
      simp only [List.headD_cons]
      rw [hg]
      exact hgrp

theorem isTermLine_of_group {line : String}
    (h : firstTok line = "ATOM" ∨ firstTok line = "HETATM") :
    isTermLine line = false := by
  unfold isTermLine
  cases h with
  | inl h => rw [h]; decide
  | inr h => rw [h]; decide

theorem notHeader_of_group {line : String}
    (h : firstTok line = "ATOM" ∨ firstTok line = "HETATM") :
    strStarts (firstTok line) "_atom_site." = false := by
  cases h with
  | inl h => rw [h]; decide
  | inr h => rw [h]; decide

theorem decodeRow?_group {line : String} {r : AtomRecord}
    (h : decodeRow? requiredCols line = some r) :
    firstTok line = "ATOM" ∨ firstTok line = "HETATM" :=
  countRow?_group (countRow?_of_posRow? (decodeRow?_posRow? h).1)

theorem scanLines_readingHeader_append {α : Type}
    (dec : List String → Nat → String → Except ParseError α) (hdrs : List String)
    (hh : ∀ x ∈ hdrs, strStarts (firstTok x) "_atom_site." = true) :
    ∀ (cs : List String) (n : Nat) (rest : List String),
      scanLines dec (.readingHeader cs) n (hdrs ++ rest) =
        scanLines dec (.readingHeader (cs ++ hdrs.map firstTok)) (n + hdrs.length) rest := by
  induction hdrs with
  | nil => intro cs n rest; simp
  | cons x hdrs ih =>
      intro cs n rest
      rw [List.cons_append]
      simp only [scanLines]
      rw [if_pos (hh x (by simp))]
      rw [ih (fun y hy => hh y (by simp [hy])) (cs ++ [firstTok x]) (n + 1) rest]
      simp only [List.map_cons, List.length_cons]
      have hn : n + 1 + hdrs.length = n + (hdrs.length + 1) := by omega
      rw [hn]
      simp

theorem scanLines_readingHeader_rows {α : Type}
    (dec : List String → Nat → String → Except ParseError α) (cols : List String)
    (n : Nat) (l : String) (ls : List String)
    (hl : strStarts (firstTok l) "_atom_site." = false)
    (hreq : requiredPresent cols = true) :
    scanLines dec (.readingHeader cols) n (l :: ls) = scanRows dec cols n (l :: ls) := by
  simp only [scanLines]
  rw [if_neg (by simp [hl]), if_pos hreq]

theorem scanLines_stdHeader {α : Type}
    (dec : List String → Nat → String → Except ParseError α) (n : Nat) (xs : List String) :
    scanLines dec .seeking n (stdHeaderLines ++ xs) =
      scanLines dec (.readingHeader requiredCols) (n + 22) xs := rfl

theorem scanLines_seeking_skip {α : Type}
    (dec : List String → Nat → String → Except ParseError α) (pre : List String)
    (hpre : ∀ x ∈ pre, firstTok x ≠ "loop_") :
    ∀ (n : Nat) (xs : List String),
      scanLines dec .seeking n (pre ++ xs) = scanLines dec .seeking (n + pre.length) xs := by
  induction pre with
  | nil => intro n xs; simp
  | cons x pre ih =>
      intro n xs
      rw [List.cons_append]
      simp only [scanLines]
      rw [if_neg (hpre x (by simp))]
      rw [ih (fun y hy => hpre y (by simp [hy])) (n + 1) xs]
      have hn : n + 1 + pre.length = n + (x :: pre).length := by simp; omega
      rw [hn]

theorem scanLines_loopHeader {α : Type}
    (dec : List String → Nat → String → Except ParseError α) (h0 : String)
    (hdrs : List String)
    (hh0 : strStarts (firstTok h0) "_atom_site." = true)
    (hh : ∀ x ∈ hdrs, strStarts (firstTok x) "_atom_site." = true) :
    ∀ (n : Nat) (xs : List String),
      scanLines dec .seeking n ("loop_" :: h0 :: (hdrs ++ xs)) =
        scanLines dec (.readingHeader (firstTok h0 :: hdrs.map firstTok))
          (n + 2 + hdrs.length) xs := by
  intro n xs
  have h1 : scanLines dec .seeking n ("loop_" :: h0 :: (hdrs ++ xs)) =
      scanLines dec .afterLoop (n + 1) (h0 :: (hdrs ++ xs)) := by
    simp only [scanLines]
    rw [if_pos (by rfl)]
  have h2 : scanLines dec .afterLoop (n + 1) (h0 :: (hdrs ++ xs)) =
      scanLines dec (.readingHeader [firstTok h0]) (n + 2) (hdrs ++ xs) := by
    simp only [scanLines]
    rw [if_pos hh0]
  rw [h1, h2, scanLines_readingHeader_append _ hdrs hh [firstTok h0] (n + 2) xs]
  rw [List.singleton_append]

/-! ## Row-failure propagation -/

theorem scanRows_failsAt {α : Type} (f : List String → String → Option α) (cols : List String) :
    ∀ (rows : List String) (bad : String) (rest : List String) (n : Nat),
      (∀ r ∈ rows, isTermLine r = false ∧ (f cols r).isSome = true) →
      isTermLine bad = false → f cols bad = none →
      scanRows (liftRow f) cols n (rows ++ bad :: rest) =
        .error (.decodeError (n + rows.length)) := by
  intro rows
  induction rows with
  | nil =>
      intro bad rest n _ hbt hbd
      rw [List.nil_append]
      simp only [scanRows]
      rw [if_neg (by simp [hbt])]
      have hl : liftRow f cols n bad = .error (.decodeError n) := by
        unfold liftRow
        rw [hbd]
      rw [hl]
      rfl
  | cons r rows ih =>
      intro bad rest n hrows hbt hbd
      rw [List.cons_append]
      simp only [scanRows]
      obtain ⟨hrt, hrs⟩ := hrows r (by simp)
      rw [if_neg (by simp [hrt])]
      obtain ⟨a, ha⟩ := Option.isSome_iff_exists.mp hrs
      have hlr : liftRow f cols n r = .ok a := by
        unfold liftRow
        rw [ha]
      rw [hlr]
      show (scanRows (liftRow f) cols (n + 1) (rows ++ bad :: rest)).map _ =
        .error (.decodeError (n + (r :: rows).length))
      rw [ih bad rest (n + 1) (fun s hs => hrows s (by simp [hs])) hbt hbd]
      have hn : n + 1 + rows.length = n + (r :: rows).length := by simp; omega
      rw [hn]
      rfl

theorem decodeRow?_none_of_badCoord {cols : List String} {bad name t : String}
    (hname : name = "_atom_site.Cartn_x" ∨ name = "_atom_site.Cartn_y" ∨
      name = "_atom_site.Cartn_z")
    (ht : colTok? cols (wsTokens bad) name = some t) (hx : parseDec? t = none) :
    decodeRow? cols bad = none := by
  have hdec : decCol? cols (wsTokens bad) name = none := by
    unfold decCol?
    rw [ht]
    simpa using hx
  have hp : posRow? cols bad = none := by
    cases hp : posRow? cols bad with
    | none => rfl
    | some p =>
        exfalso
        unfold posRow? at hp
        dsimp only at hp
        split at hp
        · simp only [optBindM_some] at hp
          obtain ⟨u, -, hp⟩ := hp
          obtain ⟨cx, hcx, hp⟩ := hp
          obtain ⟨cy, hcy, hp⟩ := hp
          obtain ⟨cz, hcz, -⟩ := hp
          rcases hname with h | h | h <;> rw [h] at hdec
          · rw [hdec] at hcx; exact absurd hcx (by simp)
          · rw [hdec] at hcy; exact absurd hcy (by simp)
          · rw [hdec] at hcz; exact absurd hcz (by simp)
        · exact absurd hp (by simp)
  cases hd : decodeRow? cols bad with
  | none => rfl
  | some r =>
      exfalso
      have := (decodeRow?_posRow? hd).1
      rw [hp] at this
      exact absurd this (by simp)

/-! ## Claim theorems -/

/-- C1: for every well-formed input (one on which `parse` succeeds), the
count-only entry point returns exactly the length of the full-parse result. -/
theorem count_eq_length_parse (lines : List String) (l : List AtomRecord)
    (h : parse lines = .ok l) : count lines = .ok l.length := by
  unfold parse at h
  rw [exceptMap_ok] at h
  obtain ⟨xs, hscan, hl⟩ := h
  have hcnt := scanLines_rel (liftRow decodeRow?) (liftRow countRow?) (fun _ => ())
    (fun cols n l a ha => by
      rw [liftRow_ok] at ha ⊢
      have hp := decodeRow?_posRow? ha
      exact countRow?_of_posRow? hp.1) lines hscan
  unfold count
  rw [hcnt]
  simp [Except.map, ← hl, assignIdsFrom_length]

/-- C2: for every well-formed input, `positions` returns exactly the ordered
x/y/z triples of the `parse` result (same length, same order). -/
theorem positions_eq_parse_coords (lines : List String) (l : List AtomRecord)
    (h : parse lines = .ok l) :
    positions lines = .ok (l.map (fun r => (r.x, r.y, r.z))) := by
  unfold parse at h
  rw [exceptMap_ok] at h
  obtain ⟨xs, hscan, hl⟩ := h
  have hpos := scanLines_rel (liftRow decodeRow?) (liftRow posRow?)
    (fun r => (r.Cartn_x, r.Cartn_y, r.Cartn_z))
    (fun cols n l a ha => by
      rw [liftRow_ok] at ha ⊢
      exact (decodeRow?_posRow? ha).1) lines hscan
  have hco := scanLines_forall (liftRow decodeRow?)
    (fun r => r.x = r.Cartn_x ∧ r.y = r.Cartn_y ∧ r.z = r.Cartn_z)
    (fun cols n l a ha => by
      rw [liftRow_ok] at ha
      exact (decodeRow?_posRow? ha).2) lines hscan
  unfold positions
  rw [hpos, ← hl, assignIdsFrom_map_coords]
  congr 1
  exact List.map_congr_left (fun r hr => by
    obtain ⟨h1, h2, h3⟩ := hco r hr
    rw [h1, h2, h3])

/-- C3: ids in the `parse` result are re-derived sequentially starting at 1
in output order: the record at index `i` has id `i + 1`. -/
theorem parse_ids_sequential (lines : List String) (l : List AtomRecord)
    (h : parse lines = .ok l) :
    ∀ (i : Nat) (r : AtomRecord), l.get? i = some r → r.id = (i : Int) + 1 := by
  unfold parse at h
  rw [exceptMap_ok] at h
  obtain ⟨xs, hscan, hl⟩ := h
  intro i r hr
  rw [← hl, assignIdsFrom_get?] at hr
  rcases hget : xs.get? i with _ | r0
  · rw [hget] at hr; exact absurd hr (by simp)
  · rw [hget] at hr
    have hr2 : ({ r0 with id := 1 + (i : Int) } : AtomRecord) = r := by simpa using hr
    rw [← hr2]
    exact Int.add_comm 1 i

/-- C7: in every record of every `parse` result, the derived `x`, `y`, `z`
fields are exactly the record's `Cartn_x`, `Cartn_y`, `Cartn_z`. -/
theorem parse_xyz_copies (lines : List String) (l : List AtomRecord)
    (h : parse lines = .ok l) :
    ∀ r ∈ l, r.x = r.Cartn_x ∧ r.y = r.Cartn_y ∧ r.z = r.Cartn_z := by
  unfold parse at h
  rw [exceptMap_ok] at h
  obtain ⟨xs, hscan, hl⟩ := h
  have hco := scanLines_forall (liftRow decodeRow?)
    (fun r => r.x = r.Cartn_x ∧ r.y = r.Cartn_y ∧ r.z = r.Cartn_z)
    (fun cols n l a ha => by
      rw [liftRow_ok] at ha
      exact (decodeRow?_posRow? ha).2) lines hscan
  rw [← hl]
  exact assignIdsFrom_coords_mem 1 xs hco

/-- C4: a data row one of whose coordinate tokens (`Cartn_x`, `Cartn_y` or
`Cartn_z`) does not parse as a number makes the whole `parse` call fail with
a `decodeError` tagged with the row's 1-based source line number — for any
preamble before the table, any `_atom_site` header column order (extra
columns allowed, as long as the required ones are present), any good rows
before the bad one and any continuation of the file after it; the error
result carries no records. -/
theorem parse_decodeError_of_bad_coordinate
    (pre : List String) (h0 : String) (hdrs rows : List String) (bad : String)
    (rest : List String)
    (hpre : ∀ x ∈ pre, firstTok x ≠ "loop_")
    (hh0 : strStarts (firstTok h0) "_atom_site." = true)
    (hh : ∀ x ∈ hdrs, strStarts (firstTok x) "_atom_site." = true)
    (hreq : requiredPresent (firstTok h0 :: hdrs.map firstTok) = true)
    (hrows : ∀ r ∈ rows, isTermLine r = false ∧
      strStarts (firstTok r) "_atom_site." = false ∧
      (decodeRow? (firstTok h0 :: hdrs.map firstTok) r).isSome = true)
    (hbterm : isTermLine bad = false)
    (hbhdr : strStarts (firstTok bad) "_atom_site." = false)
    (hcoord : ∃ name, (name = "_atom_site.Cartn_x" ∨ name = "_atom_site.Cartn_y" ∨
        name = "_atom_site.Cartn_z") ∧ ∃ t,
        colTok? (firstTok h0 :: hdrs.map firstTok) (wsTokens bad) name = some t ∧
        parseDec? t = none) :
    parse (pre ++ "loop_" :: h0 :: (hdrs ++ (rows ++ bad :: rest))) =
      .error (.decodeError (pre.length + 3 + hdrs.length + rows.length)) := by
  obtain ⟨name, hname, t, ht, hx⟩ := hcoord
  have hbnone : decodeRow? (firstTok h0 :: hdrs.map firstTok) bad = none :=
    decodeRow?_none_of_badCoord hname ht hx
  unfold parse
  rw [scanLines_seeking_skip _ pre hpre 1 _]
  rw [scanLines_loopHeader _ h0 hdrs hh0 hh _ _]
  cases rows with
  | nil =>
      rw [List.nil_append]
      rw [scanLines_readingHeader_rows _ _ _ _ _ hbhdr hreq]
      have hfail := scanRows_failsAt decodeRow? (firstTok h0 :: hdrs.map firstTok)
        [] bad rest (1 + pre.length + 2 + hdrs.length) (by simp) hbterm hbnone
      rw [List.nil_append] at hfail
      rw [hfail]
      have hn : (1 + pre.length + 2 + hdrs.length) + ([] : List String).length
          = pre.length + 3 + hdrs.length + ([] : List String).length := by simp; omega
      rw [hn]
      rfl
  | cons r rows =>
      obtain ⟨hrt, hrh, hrd⟩ := hrows r (by simp)
      rw [List.cons_append]
      rw [scanLines_readingHeader_rows _ _ _ _ _ hrh hreq]
      rw [← List.cons_append]
      rw [scanRows_failsAt decodeRow? (firstTok h0 :: hdrs.map firstTok)
        (r :: rows) bad rest (1 + pre.length + 2 + hdrs.length)
        (fun s hs => ⟨(hrows s hs).1, (hrows s hs).2.2⟩) hbterm hbnone]
      have hn : (1 + pre.length + 2 + hdrs.length) + (r :: rows).length
          = pre.length + 3 + hdrs.length + (r :: rows).length := by omega
      rw [hn]
      rfl

/-- C5: a header block missing a required `_atom_site` column makes `parse`
fail with `schemaError` at the header/rows transition, before any data row
is decoded (the conclusion holds for every continuation of the file). -/
theorem parse_schemaError_of_missing_column
    (h0 : String) (hdrs : List String) (l : String) (rest : List String)
    (hh0 : strStarts (firstTok h0) "_atom_site." = true)
    (hh : ∀ x ∈ hdrs, strStarts (firstTok x) "_atom_site." = true)
    (hl : strStarts (firstTok l) "_atom_site." = false)
    (hmiss : requiredPresent (firstTok h0 :: hdrs.map firstTok) = false) :
    parse ("loop_" :: h0 :: (hdrs ++ l :: rest)) = .error .schemaError := by
  unfold parse
  have h1 : scanLines (liftRow decodeRow?) .seeking 1 ("loop_" :: h0 :: (hdrs ++ l :: rest))
      = scanLines (liftRow decodeRow?) .afterLoop 2 (h0 :: (hdrs ++ l :: rest)) := by
    simp only [scanLines]
    rw [if_pos (by rfl)]
  have h2 : scanLines (liftRow decodeRow?) .afterLoop 2 (h0 :: (hdrs ++ l :: rest))
      = scanLines (liftRow decodeRow?) (.readingHeader [firstTok h0]) 3 (hdrs ++ l :: rest) := by
    simp only [scanLines]
    rw [if_pos hh0]
  rw [h1, h2, scanLines_readingHeader_append _ hdrs hh [firstTok h0] 3 (l :: rest)]
  rw [List.singleton_append]
  simp only [scanLines]
  rw [if_neg (by simp [hl]), if_neg (by simp [hmiss])]
  rfl

/-- C6: an input on which the state machine hands zero data rows to the row
decoder (zero `_atom_site` rows, or no `_atom_site` table found before end
of input) makes all three entry points succeed: `count` is 0 and `parse`
and `positions` are empty. -/
theorem empty_when_no_rows (lines : List String)
    (h : scannedRows lines = .ok []) :
    count lines = .ok 0 ∧ parse lines = .ok [] ∧ positions lines = .ok [] := by
  unfold scannedRows at h
  refine ⟨?_, ?_, ?_⟩
  · unfold count
    rw [scanLines_okNil _ _ lines h]
    rfl
  · unfold parse
    rw [scanLines_okNil _ _ lines h]
    rfl
  · unfold positions
    exact scanLines_okNil _ _ lines h

/-- C8: on a path that does not exist, each of the four public wrapper entry
points raises `FileNotFoundError`, whatever the backend does — the existence
check lives in the wrapper, and the backend (the parsing core) is never
consulted, as witnessed by the quantification over all backends. -/
theorem wrappers_fileNotFound (fs : PyFileSystem) (p : PyPathLike)
    (h : fs.fileExists (pathStr p) = false) :
    (∀ (α : Type) (b : String → Except String α),
        parse_mmcif fs b p =
          .error (.fileNotFoundError ("mmCIF file not found: " ++ pathStr p))) ∧
    (∀ (α : Type) (b : String → Except String α),
        get_atom_count fs b p =
          .error (.fileNotFoundError ("mmCIF file not found: " ++ pathStr p))) ∧
    (∀ (α : Type) (b : String → Except String α),
        get_atoms fs b p =
          .error (.fileNotFoundError ("mmCIF file not found: " ++ pathStr p))) ∧
    (∀ (α : Type) (b : String → Except String α),
        get_atom_positions fs b p =
          .error (.fileNotFoundError ("mmCIF file not found: " ++ pathStr p))) := by
  refine ⟨?_, ?_, ?_, ?_⟩ <;>
    · intro α b
      simp only [parse_mmcif, get_atom_count, get_atoms, get_atom_positions, wrapperCall]
      rw [if_neg (by simp [h])]

/-- C9: the public `get_atoms` entry point is equivalent to `parse_mmcif`:
for every file system, file content and path, they return the same ordered
record sequence. -/
theorem get_atoms_equiv_parse_mmcif (fs : PyFileSystem) (content : String → List String)
    (p : PyPathLike) (l : List AtomRecord) :
    nim_get_atoms fs content p = .ok l ↔ nim_parse_mmcif fs content p = .ok l := by
  unfold nim_get_atoms nim_parse_mmcif get_atoms parse_mmcif wrapperCall
    backend_get_atoms backend_parse_mmcif
  by_cases h : fs.fileExists (pathStr p) = true
  · rw [if_pos h, if_pos h]
    cases parse (content (pathStr p)) <;> simp
  · rw [if_neg h, if_neg h]

/-- C10: each public wrapper entry point accepts a string path or a Path
object and normalizes it before calling the backend: on an existing file, a
Path argument gives the same result as the equal string argument. -/
theorem wrappers_path_str_agree (fs : PyFileSystem) (s : String)
    (_h : fs.fileExists s = true) :
    (∀ (α : Type) (b : String → Except String α),
        parse_mmcif fs b (.str s) = parse_mmcif fs b (.path s)) ∧
    (∀ (α : Type) (b : String → Except String α),
        get_atom_count fs b (.str s) = get_atom_count fs b (.path s)) ∧
    (∀ (α : Type) (b : String → Except String α),
        get_atoms fs b (.str s) = get_atoms fs b (.path s)) ∧
    (∀ (α : Type) (b : String → Except String α),
        get_atom_positions fs b (.str s) = get_atom_positions fs b (.path s)) := by
  refine ⟨?_, ?_, ?_, ?_⟩ <;> exact fun α b => rfl

/-! ## Concrete evaluations and witnesses -/

/-- The spec section 8 scenario: the sample file parses to exactly the one
expected record. -/
theorem parse_sample_scenario : parse sampleLines = .ok [sampleRecord] := by decide

theorem count_eq_length_parse_witness :
    count sampleLines = .ok ([sampleRecord].length) :=
  count_eq_length_parse sampleLines [sampleRecord] (by decide)

theorem positions_eq_parse_coords_witness :
    positions sampleLines = .ok ([sampleRecord].map (fun r => (r.x, r.y, r.z))) :=
  positions_eq_parse_coords sampleLines [sampleRecord] (by decide)

theorem parse_ids_sequential_witness :
    sampleRecord.id = ((0 : Nat) : Int) + 1 :=
  parse_ids_sequential sampleLines [sampleRecord] (by decide) 0 sampleRecord (by decide)

theorem parse_xyz_copies_witness :
    sampleRecord.x = sampleRecord.Cartn_x ∧ sampleRecord.y = sampleRecord.Cartn_y ∧
      sampleRecord.z = sampleRecord.Cartn_z :=
  parse_xyz_copies sampleLines [sampleRecord] (by decide) sampleRecord (by decide)

theorem parse_decodeError_of_bad_coordinate_witness :
    parse (["data_test", "# comment"] ++ "loop_" :: "_atom_site.id" ::
        (permHdrTail ++ ([permDataRow] ++ permBadRow :: ["#"]))) =
      .error (.decodeError ((["data_test", "# comment"] : List String).length + 3 +
        permHdrTail.length + ([permDataRow] : List String).length)) :=
  parse_decodeError_of_bad_coordinate ["data_test", "# comment"] "_atom_site.id"
    permHdrTail [permDataRow] permBadRow ["#"]
    (by decide) (by decide) (by decide) (by decide) (by decide) (by decide) (by decide)
    ⟨"_atom_site.Cartn_y", Or.inr (Or.inl rfl), "bogus", by decide, by decide⟩

theorem parse_schemaError_of_missing_column_witness :
    parse ("loop_" :: "_atom_site.group_PDB" :: (["_atom_site.id"] ++ "ATOM 1" :: [])) =
      .error .schemaError :=
  parse_schemaError_of_missing_column "_atom_site.group_PDB" ["_atom_site.id"] "ATOM 1" []
    (by decide) (by decide) (by decide) (by decide)

theorem empty_when_no_rows_witness :
    count ["# hello", "data_test"] = .ok 0 ∧ parse ["# hello", "data_test"] = .ok [] ∧
      positions ["# hello", "data_test"] = .ok [] :=
  empty_when_no_rows ["# hello", "data_test"] (by decide)

theorem wrappers_fileNotFound_witness :
    parse_mmcif ⟨fun _ => false⟩ (fun _ => .ok ([] : List AtomRecord))
        (.str "nonexistent_file.mmcif") =
      .error (.fileNotFoundError
        ("mmCIF file not found: " ++ pathStr (.str "nonexistent_file.mmcif"))) :=
  (wrappers_fileNotFound ⟨fun _ => false⟩ (.str "nonexistent_file.mmcif") rfl).1
    (List AtomRecord) (fun _ => .ok [])

theorem wrappers_path_str_agree_witness :
    parse_mmcif ⟨fun _ => true⟩ (fun _ => .ok ([] : List AtomRecord)) (.str "test.mmcif") =
      parse_mmcif ⟨fun _ => true⟩ (fun _ => .ok ([] : List AtomRecord)) (.path "test.mmcif") :=
  (wrappers_path_str_agree ⟨fun _ => true⟩ "test.mmcif" rfl).1 (List AtomRecord) (fun _ => .ok [])

end NimMmcif
